import Mathlib

/-!
Shallow embedding of `src/adapters/src/lib.rs` (hydradx-adapters):
`MultiCurrencyTrader` (`buy_weight`, `refund_weight`, the `Drop` teardown)
and `ToFeeReceiver::take_revenue`, at the concrete instantiation fixed by the
crate's tests (`tests.rs`): `Balance = u128`, `Price = FixedU128`
(fixed-point with `DIV = 10^18`), XCM `Weight = u64`, `AssetId = u32` and
`AccountId = u32` (opaque identifiers, modelled as `Nat`).  Machine integers
are `Nat` with explicit saturation bounds; `BTreeMap`s are association lists
in strictly increasing key order.
-/

namespace Adapters

/-- Largest `u128` value (`u128::MAX`). -/
def u128Max : Nat := 2 ^ 128 - 1

/-- Largest `u64` value (`u64::MAX`). -/
def u64Max : Nat := 2 ^ 64 - 1

/-- Rust `FixedU128`: a non-negative fixed-point number with 18 decimals,
represented by its raw integer `inner` (the represented value is
`inner / 10^18`). -/
structure Price where
  inner : Nat
deriving DecidableEq

/-- Rust `FixedU128::DIV = 10^18`. -/
def Price.DIV : Nat := 10 ^ 18

/-- Rust `FixedPointNumber::checked_mul_int` (sp-arithmetic) at `N = u128`:
`multiply_by_rational_with_rounding(inner, n, DIV, Minor)` computes
`inner * n / DIV` in wide arithmetic, truncating toward zero, and fails
exactly when the result does not fit in `u128`. -/
def Price.checked_mul_int (p : Price) (n : Nat) : Option Nat :=
  if p.inner * n / Price.DIV ≤ u128Max then some (p.inner * n / Price.DIV) else none

/-- Rust `FixedPointNumber::saturating_mul_int` at `N = u128`: the same
truncated product, saturating at the `u128` bound instead of failing. -/
def Price.saturating_mul_int (p : Price) (n : Nat) : Nat :=
  min (p.inner * n / Price.DIV) u128Max

/-- XCM `AssetId`: `Concrete(MultiLocation)` or `Abstract(Vec<u8>)`.  The
derived Rust `Ord` orders every `Concrete` key before every `Abstract` key.
`MultiLocation` and the abstract payload are opaque ordered identifiers,
modelled as `Nat`. -/
inductive XcmAssetId where
  | Concrete (loc : Nat)
  | Abstract (key : Nat)
deriving DecidableEq

/-- Strict order on `XcmAssetId` matching the derived Rust `Ord`. -/
def XcmAssetId.ltb : XcmAssetId → XcmAssetId → Bool
  | .Concrete a, .Concrete b => a < b
  | .Concrete _, .Abstract _ => true
  | .Abstract _, .Concrete _ => false
  | .Abstract a, .Abstract b => a < b

/-- XCM `Fungibility`: a fungible amount (`u128`) or a non-fungible
instance (opaque, modelled as `Nat`). -/
inductive Fungibility where
  | Fungible (amount : Nat)
  | NonFungible (inst : Nat)
deriving DecidableEq

/-- XCM `MultiAsset` (the Rust field `fun` is a Lean keyword, so the
fungibility field is named `fn` here). -/
structure MultiAsset where
  id : XcmAssetId
  fn : Fungibility
deriving DecidableEq

/-- Association-list lookup (`BTreeMap::get`). -/
def alLookup {κ : Type} [DecidableEq κ] : List (κ × Nat) → κ → Option Nat
  | [], _ => none
  | (k, v) :: t, q => if q = k then some v else alLookup t q

/-- In-place value update at an existing key (`BTreeMap::get_mut` followed by
an assignment); leaves the map unchanged if the key is absent. -/
def alUpdate {κ : Type} [DecidableEq κ] : List (κ × Nat) → κ → Nat → List (κ × Nat)
  | [], _, _ => []
  | (k, v) :: t, q, w => if q = k then (k, w) :: t else (k, v) :: alUpdate t q w

/-- Key removal (`BTreeMap::remove`). -/
def alErase {κ : Type} [DecidableEq κ] : List (κ × Nat) → κ → List (κ × Nat)
  | [], _ => []
  | (k, v) :: t, q => if q = k then t else (k, v) :: alErase t q

/-- Order-preserving insertion (`BTreeMap::insert`), parametrised by the
strict key order `lt`; replaces the value if the key is already present. -/
def alInsert {κ : Type} [DecidableEq κ] (lt : κ → κ → Bool) :
    List (κ × Nat) → κ → Nat → List (κ × Nat)
  | [], q, w => [(q, w)]
  | (k, v) :: t, q, w =>
    if lt q k then (q, w) :: (k, v) :: t
    else if q = k then (k, w) :: t
    else (k, v) :: alInsert lt t q w

/-- Rust `xcm_executor::Assets`: fungible balances are a
`BTreeMap<AssetId, u128>` (association list in ascending `XcmAssetId.ltb`
order) and non-fungible assets a `BTreeSet<(AssetId, AssetInstance)>`. -/
structure Assets where
  fungible : List (XcmAssetId × Nat)
  nonFungible : List (XcmAssetId × Nat)
deriving DecidableEq

/-- Representation invariant of the fungible map: strictly ascending
`BTreeMap` key order (in particular every `Concrete` key precedes every
`Abstract` key). -/
def Assets.WF (a : Assets) : Prop :=
  a.fungible.Pairwise (fun x y => XcmAssetId.ltb x.1 y.1 = true)

/-- Rust `payment.fungible_assets_iter().next()`: the first entry of the
fungible map, as a `MultiAsset`. -/
def Assets.firstFungible (a : Assets) : Option MultiAsset :=
  a.fungible.head?.map (fun kv => ⟨kv.1, .Fungible kv.2⟩)

/-- Rust `Assets::checked_sub`; `none` plays the role of `Err(self)` (the
assets are handed back unchanged on failure).  The Rust code subtracts from
the balance in place and then removes the entry if it became zero; the
resulting map is the same. -/
def Assets.checked_sub (a : Assets) (asset : MultiAsset) : Option Assets :=
  match asset.fn with
  | .Fungible amount =>
    match alLookup a.fungible asset.id with
    | some balance =>
      if amount ≤ balance then
        some { a with fungible :=
          if balance - amount = 0 then alErase a.fungible asset.id
          else alUpdate a.fungible asset.id (balance - amount) }
      else none
    | none => none
  | .NonFungible inst =>
    if (asset.id, inst) ∈ a.nonFungible then
      some { a with nonFungible := a.nonFungible.erase (asset.id, inst) }
    else none

/-- The `XcmError` variants surfaced by `buy_weight`. -/
inductive XcmError where
  | AssetNotFound
  | Overflow
  | TooExpensive
deriving DecidableEq

/-- Ledger key order: lexicographic on `(MultiLocation, Price)`, i.e. the
`BTreeMap` ordering of `paid_assets` (`FixedU128`'s derived `Ord` compares
the raw `inner`). -/
def lkeyLt (a b : Nat × Price) : Bool :=
  a.1 < b.1 || (a.1 == b.1 && a.2.inner < b.2.inner)

/-- State of a `MultiCurrencyTrader`: the accumulated `weight` (`u64`) and
the `paid_assets : BTreeMap<(MultiLocation, Price), u128>` ledger, modelled
as an association list in ascending `lkeyLt` order. -/
structure TraderState where
  weight : Nat
  paid_assets : List ((Nat × Price) × Nat)
deriving DecidableEq

/-- Rust `WeightTrader::new` for `MultiCurrencyTrader`. -/
def TraderState.new : TraderState := ⟨0, []⟩

/-- The injected collaborators of the trader: `ConvertCurrency::convert`,
`AcceptedCurrencyPrices::price` and `ConvertWeightToFee::weight_to_fee`
(`AssetId` is opaque, modelled as `Nat`; the fee is a `Balance = u128`). -/
structure Collab where
  convert : MultiAsset → Option Nat
  price : Nat → Option Price
  weight_to_fee : Nat → Nat

/-- Rust `MultiCurrencyTrader::get_asset_and_price`. -/
def get_asset_and_price (c : Collab) (payment : Assets) : Option (Nat × Price) :=
  match payment.firstFungible with
  | some asset =>
    (c.convert asset).bind fun currency =>
      (c.price currency).bind fun price =>
        match asset.id with
        | .Concrete loc => some (loc, price)
        | .Abstract _ => none
  | none => none

/-- Saturating `u64` addition (`self.weight.saturating_add(weight)`). -/
def satAdd64 (a b : Nat) : Nat := min (a + b) u64Max

/-- The ledger update performed by a successful `buy_weight`:
`saturating_accrue` (saturating `u128` addition) on an existing bucket, or
`insert` of a fresh bucket. -/
def ledgerAdd (l : List ((Nat × Price) × Nat)) (key : Nat × Price) (amount : Nat) :
    List ((Nat × Price) × Nat) :=
  match alLookup l key with
  | some v => alUpdate l key (min (v + amount) u128Max)
  | none => alInsert lkeyLt l key amount

/-- Rust `MultiCurrencyTrader::buy_weight`.  Returns the `Result` together
with the trader state after the call; `self` is untouched on every error
path, so the error branches hand back `s`.  The narrowing
`converted_fee.try_into::<u128>()` is the identity at `Balance = u128` and
cannot fail. -/
def buy_weight (c : Collab) (s : TraderState) (weight : Nat) (payment : Assets) :
    Except XcmError Assets × TraderState :=
  match get_asset_and_price c payment with
  | none => (.error .AssetNotFound, s)
  | some (asset_loc, price) =>
    match price.checked_mul_int (c.weight_to_fee weight) with
    | none => (.error .Overflow, s)
    | some amount =>
      match payment.checked_sub ⟨.Concrete asset_loc, .Fungible amount⟩ with
      | none => (.error .TooExpensive, s)
      | some unused =>
        (.ok unused,
         { weight := satAdd64 s.weight weight,
           paid_assets := ledgerAdd s.paid_assets (asset_loc, price) amount })

/-- Rust `MultiCurrencyTrader::refund_weight`.  The requested weight is
clamped to the accumulated weight before anything else; the refunded bucket
is the first entry of the `paid_assets` map; `saturated_into::<u128>()` on
the converted fee is the identity at `Balance = u128`. -/
def refund_weight (c : Collab) (s : TraderState) (weight : Nat) :
    Option MultiAsset × TraderState :=
  let w := min weight s.weight
  let fee := c.weight_to_fee w
  match s.paid_assets.head? with
  | some ((asset_loc, price), amount) =>
    let converted_fee := Price.saturating_mul_int price fee
    let refund := min converted_fee amount
    let remaining := amount - refund
    let paid :=
      if remaining = 0 then alErase s.paid_assets (asset_loc, price)
      else alUpdate s.paid_assets (asset_loc, price) remaining
    (some ⟨.Concrete asset_loc, .Fungible refund⟩,
     { weight := s.weight - w, paid_assets := paid })
  | none => (none, { weight := s.weight - w, paid_assets := s.paid_assets })

/-- Rust `Drop::drop` for `MultiCurrencyTrader` (the end-of-session flush):
forwards every remaining bucket to `Revenue::take_revenue` as a concrete
fungible `MultiAsset`.  In Rust, `drop` consumes the trader, so the
session's ledger no longer exists afterwards; the post-state models the
destroyed session by an emptied `paid_assets`. -/
def flush (s : TraderState) : List MultiAsset × TraderState :=
  (s.paid_assets.map (fun e => ⟨.Concrete e.1.1, .Fungible e.2⟩),
   { s with paid_assets := [] })

/-- The collaborators of `ToFeeReceiver` (`C`, `D`, `F` in the Rust code):
location-to-asset conversion, the fee-receiver account, and `deposit_fee`
(`true` for `Ok(())`, `false` for a `DispatchError`).  At `Balance = u128`
the `amount.saturated_into::<Balance>()` narrowing is the identity. -/
structure SinkCollab where
  convertLoc : Nat → Option Nat
  get_fee_receiver : Nat
  deposit_fee : Nat → Nat → Nat → Bool

/-- Observable outcome of one `ToFeeReceiver::take_revenue` call: a
successful deposit, a deposit error that was logged and swallowed, a
location whose conversion failed (dropped silently), or a rejected
non-concrete or non-fungible asset (diagnostic only). -/
inductive RevenueOutcome where
  | deposited (receiver currency amount : Nat)
  | depositFailed (receiver currency amount : Nat)
  | unconvertible (loc : Nat)
  | rejected
deriving DecidableEq

/-- Rust `ToFeeReceiver::take_revenue`.  Total: every input is mapped to an
outcome and nothing is propagated; the `debug_assert` on the rejection path
is compiled out of release builds and is modelled, together with the log
line, by the `rejected` diagnostic outcome. -/
def take_revenue (k : SinkCollab) (asset : MultiAsset) : RevenueOutcome :=
  match asset with
  | ⟨.Concrete loc, .Fungible amount⟩ =>
    match k.convertLoc loc with
    | some currency =>
      if k.deposit_fee k.get_fee_receiver currency amount then
        .deposited k.get_fee_receiver currency amount
      else
        .depositFailed k.get_fee_receiver currency amount
    | none => .unconvertible loc
  | _ => .rejected

end Adapters

namespace Adapters

theorem alLookup_mem {κ : Type} [DecidableEq κ] {l : List (κ × Nat)} {q : κ} {v : Nat}
    (h : alLookup l q = some v) : (q, v) ∈ l := by
  induction l with
  | nil => simp [alLookup] at h
  | cons x t ih =>
    obtain ⟨k, w⟩ := x
    by_cases hq : q = k
    · subst hq
      simp [alLookup] at h
      subst h
      exact List.mem_cons_self _ _
    · simp only [alLookup, if_neg hq] at h
      exact List.mem_cons_of_mem _ (ih h)

theorem alUpdate_mem {κ : Type} [DecidableEq κ] {l : List (κ × Nat)} {q : κ} {w : Nat}
    {e : κ × Nat} (h : e ∈ alUpdate l q w) : e ∈ l ∨ e = (q, w) := by
  induction l with
  | nil => simp [alUpdate] at h
  | cons x t ih =>
    obtain ⟨k, v⟩ := x
    by_cases hq : q = k
    · subst hq
      simp only [alUpdate, if_pos rfl] at h
      rcases List.mem_cons.mp h with h | h
      · exact Or.inr h
      · exact Or.inl (List.mem_cons_of_mem _ h)
    · simp only [alUpdate, if_neg hq] at h
      rcases List.mem_cons.mp h with h | h
      · exact Or.inl (h ▸ List.mem_cons_self _ _)
      · rcases ih h with h | h
        · exact Or.inl (List.mem_cons_of_mem _ h)
        · exact Or.inr h

theorem alInsert_mem {κ : Type} [DecidableEq κ] {lt : κ → κ → Bool} {l : List (κ × Nat)}
    {q : κ} {w : Nat} {e : κ × Nat} (h : e ∈ alInsert lt l q w) : e ∈ l ∨ e = (q, w) := by
  induction l with
  | nil =>
    simp only [alInsert] at h
    exact Or.inr (List.mem_singleton.mp h)
  | cons x t ih =>
    obtain ⟨k, v⟩ := x
    by_cases hlt : lt q k
    · simp only [alInsert, if_pos hlt] at h
      rcases List.mem_cons.mp h with h | h
      · exact Or.inr h
      · exact Or.inl h
    · by_cases hq : q = k
      · subst hq
        simp only [alInsert, if_neg hlt, if_pos rfl] at h
        rcases List.mem_cons.mp h with h | h
        · exact Or.inr h
        · exact Or.inl (List.mem_cons_of_mem _ h)
      · simp only [alInsert, if_neg hlt, if_neg hq] at h
        rcases List.mem_cons.mp h with h | h
        · exact Or.inl (h ▸ List.mem_cons_self _ _)
        · rcases ih h with h | h
          · exact Or.inl (List.mem_cons_of_mem _ h)
          · exact Or.inr h

theorem alLookup_alUpdate_self {κ : Type} [DecidableEq κ] {l : List (κ × Nat)} {q : κ}
    {v : Nat} (w : Nat) (h : alLookup l q = some v) :
    alLookup (alUpdate l q w) q = some w := by
  induction l with
  | nil => simp [alLookup] at h
  | cons x t ih =>
    obtain ⟨k, u⟩ := x
    by_cases hq : q = k
    · subst hq
      simp [alUpdate, alLookup]
    · simp only [alLookup, if_neg hq] at h
      simp [alUpdate, alLookup, if_neg hq, ih h]

theorem alLookup_alInsert_self {κ : Type} [DecidableEq κ] (lt : κ → κ → Bool)
    (l : List (κ × Nat)) (q : κ) (w : Nat) :
    alLookup (alInsert lt l q w) q = some w := by
  induction l with
  | nil => simp [alInsert, alLookup]
  | cons x t ih =>
    obtain ⟨k, v⟩ := x
    by_cases hlt : lt q k
    · simp [alInsert, if_pos hlt, alLookup]
    · by_cases hq : q = k
      · subst hq
        simp [alInsert, if_neg hlt, alLookup]
      · simp [alInsert, if_neg hlt, if_neg hq, alLookup, ih]

theorem alLookup_alUpdate_ne {κ : Type} [DecidableEq κ] {l : List (κ × Nat)} {q q' : κ}
    (w : Nat) (h : q' ≠ q) : alLookup (alUpdate l q w) q' = alLookup l q' := by
  induction l with
  | nil => simp [alUpdate]
  | cons x t ih =>
    obtain ⟨k, v⟩ := x
    by_cases hq : q = k
    · subst hq
      simp [alUpdate, alLookup, if_neg h]
    · simp [alUpdate, if_neg hq, alLookup, ih]

theorem alLookup_alInsert_ne {κ : Type} [DecidableEq κ] {lt : κ → κ → Bool}
    {l : List (κ × Nat)} {q q' : κ} (w : Nat) (h : q' ≠ q) :
    alLookup (alInsert lt l q w) q' = alLookup l q' := by
  induction l with
  | nil => simp [alInsert, alLookup, if_neg h]
  | cons x t ih =>
    obtain ⟨k, v⟩ := x
    by_cases hlt : lt q k
    · simp [alInsert, if_pos hlt, alLookup, if_neg h]
    · by_cases hq : q = k
      · subst hq
        simp [alInsert, if_neg hlt, alLookup, if_neg h]
      · simp [alInsert, if_neg hlt, if_neg hq, alLookup, ih]

theorem alInsert_length {κ : Type} [DecidableEq κ] {lt : κ → κ → Bool} {l : List (κ × Nat)}
    {q : κ} (w : Nat) (h : alLookup l q = none) :
    (alInsert lt l q w).length = l.length + 1 := by
  induction l with
  | nil => simp [alInsert]
  | cons x t ih =>
    obtain ⟨k, v⟩ := x
    by_cases hq : q = k
    · subst hq
      simp [alLookup] at h
    · simp only [alLookup, if_neg hq] at h
      by_cases hlt : lt q k
      · simp [alInsert, if_pos hlt]
      · simp [alInsert, if_neg hlt, if_neg hq, ih h]

/-- C1: the end-of-session teardown (`Drop::drop`) forwards each remaining
ledger bucket `(AssetIdentity, amount)` to the Revenue Sink exactly once —
one `take_revenue` call per bucket, in ledger order — and leaves the ledger
empty, so flushing the resulting state forwards nothing. -/
theorem flush_forwards_once_and_empties (s : TraderState) :
    (flush s).1 = s.paid_assets.map (fun e => ⟨.Concrete e.1.1, .Fungible e.2⟩) ∧
    (flush s).1.length = s.paid_assets.length ∧
    (flush s).2.paid_assets = [] ∧
    (flush ((flush s).2)).1 = [] := by
  exact ⟨rfl, List.length_map .., rfl, by simp [flush]⟩

/-- C9: `refund_weight` and `flush` have no caller-visible failure path:
refund on an empty ledger returns `none` rather than an error, the
fee-to-asset conversion saturates at the `u128` bound instead of
overflowing, the refunded amount is clamped to the bucket's balance, and
flush processes every bucket. -/
theorem refund_flush_never_fail (c : Collab) (s : TraderState) (w : Nat) :
    (s.paid_assets = [] →
      refund_weight c s w =
        (none, { weight := s.weight - min w s.weight, paid_assets := s.paid_assets })) ∧
    (∀ k a t, s.paid_assets = (k, a) :: t →
      ∃ r, (refund_weight c s w).1 = some ⟨.Concrete k.1, .Fungible r⟩ ∧
        r = min (min (k.2.inner * c.weight_to_fee (min w s.weight) / Price.DIV) u128Max) a ∧
        r ≤ a) ∧
    (flush s).1.length = s.paid_assets.length := by
  refine ⟨fun h => by simp [refund_weight, h], fun k a t h => ?_, List.length_map ..⟩
  obtain ⟨loc, pr⟩ := k
  exact ⟨_, by simp [refund_weight, h, Price.saturating_mul_int], rfl, Nat.min_le_right _ _⟩

/-- Witness for C9 at concrete inputs: an empty ledger refunds nothing and
only clamps the weight. -/
theorem refund_flush_never_fail_witness :
    refund_weight ⟨fun _ => some 0, fun _ => some ⟨Price.DIV⟩, fun w => w⟩ ⟨10, []⟩ 4 =
      (none, ⟨6, []⟩) :=
  (refund_flush_never_fail ⟨fun _ => some 0, fun _ => some ⟨Price.DIV⟩, fun w => w⟩
    ⟨10, []⟩ 4).1 rfl

/-- C10: `ToFeeReceiver::take_revenue` is total and never propagates a
failure: a non-concrete or non-fungible asset yields only the rejection
diagnostic, a failed identity conversion is dropped silently, and a failed
deposit is logged and swallowed. -/
theorem take_revenue_never_panics (k : SinkCollab) (a : MultiAsset) :
    ((∀ loc amt, a ≠ ⟨.Concrete loc, .Fungible amt⟩) → take_revenue k a = .rejected) ∧
    (∀ loc amt, a = ⟨.Concrete loc, .Fungible amt⟩ → k.convertLoc loc = none →
      take_revenue k a = .unconvertible loc) ∧
    (∀ loc amt cur, a = ⟨.Concrete loc, .Fungible amt⟩ → k.convertLoc loc = some cur →
      k.deposit_fee k.get_fee_receiver cur amt = false →
      take_revenue k a = .depositFailed k.get_fee_receiver cur amt) ∧
    (∀ loc amt cur, a = ⟨.Concrete loc, .Fungible amt⟩ → k.convertLoc loc = some cur →
      k.deposit_fee k.get_fee_receiver cur amt = true →
      take_revenue k a = .deposited k.get_fee_receiver cur amt) := by
  obtain ⟨id, f⟩ := a
  refine ⟨fun h => ?_, fun loc amt ha hc => ?_, fun loc amt cur ha hc hd => ?_,
    fun loc amt cur ha hc hd => ?_⟩
  · cases id with
    | Concrete loc =>
      cases f with
      | Fungible amt => exact absurd rfl (h loc amt)
      | NonFungible i => rfl
    | Abstract b => cases f <;> rfl
  · cases ha
    simp [take_revenue, hc]
  · cases ha
    simp [take_revenue, hc, hd]
  · cases ha
    simp [take_revenue, hc, hd]

/-- Witness for C10 at concrete inputs: a failing deposit is swallowed and
reported as the logged `depositFailed` outcome. -/
theorem take_revenue_never_panics_witness :
    take_revenue ⟨fun _ => some 2, 42, fun _ _ _ => false⟩ ⟨.Concrete 5, .Fungible 9⟩ =
      .depositFailed 42 2 9 :=
  (take_revenue_never_panics ⟨fun _ => some 2, 42, fun _ _ _ => false⟩
    ⟨.Concrete 5, .Fungible 9⟩).2.2.1 5 9 2 rfl rfl rfl

end Adapters

namespace Adapters

theorem get_asset_and_price_head {c : Collab} {p : Assets} {id : XcmAssetId} {v : Nat}
    (hh : p.fungible.head? = some (id, v)) :
    get_asset_and_price c p =
      (c.convert ⟨id, .Fungible v⟩).bind fun currency =>
        (c.price currency).bind fun price =>
          match id with
          | .Concrete loc => some (loc, price)
          | .Abstract _ => none := by
  unfold get_asset_and_price Assets.firstFungible
  rw [hh]
  rfl

theorem get_asset_and_price_nil {c : Collab} {p : Assets}
    (hh : p.fungible.head? = none) : get_asset_and_price c p = none := by
  unfold get_asset_and_price Assets.firstFungible
  rw [hh]
  rfl

/-- C3: `buy_weight` leaves the trader state (total weight and the whole
bucket map) exactly as it was on every failure — `AssetNotFound`,
`Overflow` or `TooExpensive` — and `TooExpensive` is raised exactly when
the offered quantity of the selected asset is strictly less than the
computed cost. -/
theorem buy_failure_leaves_state_unchanged (c : Collab) (s : TraderState) (w : Nat)
    (p : Assets) :
    (∀ e, (buy_weight c s w p).1 = .error e → (buy_weight c s w p).2 = s) ∧
    (∀ loc price amount, get_asset_and_price c p = some (loc, price) →
      Price.checked_mul_int price (c.weight_to_fee w) = some amount →
      ∃ v, p.fungible.head? = some (.Concrete loc, v) ∧
        ((buy_weight c s w p).1 = .error .TooExpensive ↔ v < amount)) := by
  constructor
  · intro e he
    cases hg : get_asset_and_price c p with
    | none => simp [buy_weight, hg]
    | some x =>
      obtain ⟨loc, pr⟩ := x
      cases hm : Price.checked_mul_int pr (c.weight_to_fee w) with
      | none => simp [buy_weight, hg, hm]
      | some amt =>
        cases hs : Assets.checked_sub p ⟨.Concrete loc, .Fungible amt⟩ with
        | none => simp [buy_weight, hg, hm, hs]
        | some u => simp [buy_weight, hg, hm, hs] at he
  · intro loc pr amt hg hm
    have hg2 := hg
    cases hh : p.fungible.head? with
    | none => rw [get_asset_and_price_nil hh] at hg; cases hg
    | some kv =>
      obtain ⟨id, v⟩ := kv
      rw [get_asset_and_price_head hh] at hg
      cases hcur : c.convert ⟨id, .Fungible v⟩ with
      | none => rw [hcur] at hg; cases hg
      | some cur =>
      rw [hcur, Option.some_bind] at hg
      cases hpr : c.price cur with
      | none => rw [hpr] at hg; cases hg
      | some pr2 =>
      rw [hpr, Option.some_bind] at hg
      cases id with
      | Abstract b => cases hg
      | Concrete loc2 =>
        simp only [Option.some.injEq, Prod.mk.injEq] at hg
        obtain ⟨hl, hp⟩ := hg
        subst hl
        subst hp
        obtain ⟨t, hpf⟩ : ∃ t, p.fungible = (XcmAssetId.Concrete loc2, v) :: t := by
          cases hf : p.fungible with
          | nil => rw [hf] at hh; simp at hh
          | cons x t =>
            rw [hf] at hh
            simp only [List.head?_cons, Option.some.injEq] at hh
            exact ⟨t, by rw [hh]⟩
        refine ⟨v, rfl, ?_⟩
        by_cases hv : v < amt
        · have hnone : Assets.checked_sub p ⟨.Concrete loc2, .Fungible amt⟩ = none := by
            have hnle : ¬ amt ≤ v := by omega
            simp [Assets.checked_sub, hpf, alLookup, hnle]
          simp [buy_weight, hg2, hm, hnone, hv]
        · have hle : amt ≤ v := by omega
          obtain ⟨u, hsome⟩ :
              ∃ u, Assets.checked_sub p ⟨.Concrete loc2, .Fungible amt⟩ = some u := by
            simp [Assets.checked_sub, hpf, alLookup, hle]
          simp [buy_weight, hg2, hm, hsome, hv]

/-- Witness for C3 at concrete inputs: offering 99 units against a computed
cost of 100 fails with `TooExpensive` and leaves the trader state intact. -/
theorem buy_failure_leaves_state_unchanged_witness :
    (buy_weight ⟨fun _ => some 0, fun _ => some ⟨Price.DIV⟩, fun w => w⟩ ⟨5, []⟩ 100
      ⟨[(.Concrete 7, 99)], []⟩).2 = ⟨5, []⟩ :=
  (buy_failure_leaves_state_unchanged ⟨fun _ => some 0, fun _ => some ⟨Price.DIV⟩, fun w => w⟩
    ⟨5, []⟩ 100 ⟨[(.Concrete 7, 99)], []⟩).1 .TooExpensive (by rfl)

/-- C6: once the payment asset and its price are resolved, the charged
amount is the exchange price times the canonical fee under the fixed-point
multiply's truncation-toward-zero rounding (`inner * fee / 10^18`), and
`buy_weight` fails with `Overflow` exactly when that value does not fit the
`u128` balance width; on success the ledger bucket receives exactly that
amount (saturating on accumulation). -/
theorem buy_overflow_exactly_when_unfit (c : Collab) (s : TraderState) (w : Nat) (p : Assets)
    (loc : Nat) (price : Price) (h : get_asset_and_price c p = some (loc, price)) :
    ((buy_weight c s w p).1 = .error .Overflow ↔
      u128Max < price.inner * c.weight_to_fee w / Price.DIV) ∧
    (∀ u, (buy_weight c s w p).1 = .ok u →
      alLookup (buy_weight c s w p).2.paid_assets (loc, price) =
        some (min ((alLookup s.paid_assets (loc, price)).getD 0 +
          price.inner * c.weight_to_fee w / Price.DIV) u128Max)) := by
  by_cases hq : price.inner * c.weight_to_fee w / Price.DIV ≤ u128Max
  · have hm : Price.checked_mul_int price (c.weight_to_fee w) =
        some (price.inner * c.weight_to_fee w / Price.DIV) := by
      simp [Price.checked_mul_int, hq]
    constructor
    · cases hs : Assets.checked_sub p
          ⟨.Concrete loc, .Fungible (price.inner * c.weight_to_fee w / Price.DIV)⟩ with
      | none => simp [buy_weight, h, hm, hs]; omega
      | some u => simp [buy_weight, h, hm, hs]; omega
    · intro u hu
      cases hs : Assets.checked_sub p
          ⟨.Concrete loc, .Fungible (price.inner * c.weight_to_fee w / Price.DIV)⟩ with
      | none => simp [buy_weight, h, hm, hs] at hu
      | some u2 =>
        simp only [buy_weight, h, hm, hs]
        cases hl : alLookup s.paid_assets (loc, price) with
        | some v =>
          simp [ledgerAdd, hl, alLookup_alUpdate_self _ hl]
        | none =>
          simp [ledgerAdd, hl, alLookup_alInsert_self]
          omega
  · have hm : Price.checked_mul_int price (c.weight_to_fee w) = none := by
      simp [Price.checked_mul_int, hq]
    constructor
    · simp [buy_weight, h, hm]; omega
    · intro u hu
      simp [buy_weight, h, hm] at hu

/-- Witness for C6 at concrete inputs: price 2.0 with fee `u128::MAX`
overflows the `u128` width and `buy_weight` fails with `Overflow`. -/
theorem buy_overflow_exactly_when_unfit_witness :
    (buy_weight ⟨fun _ => some 0, fun _ => some ⟨2 * Price.DIV⟩, fun _ => u128Max⟩
      TraderState.new 1 ⟨[(.Concrete 7, 1)], []⟩).1 = .error .Overflow :=
  (buy_overflow_exactly_when_unfit
    ⟨fun _ => some 0, fun _ => some ⟨2 * Price.DIV⟩, fun _ => u128Max⟩
    TraderState.new 1 ⟨[(.Concrete 7, 1)], []⟩ 7 ⟨2 * Price.DIV⟩ rfl).1.mpr (by decide)

end Adapters

namespace Adapters

/-- C7: `buy_weight` inspects only the first fungible asset of the payment
(never a later one and never the non-fungible side), fails with
`AssetNotFound` exactly when no usable asset is found — the fungible side
is empty (payment empty or only non-fungible items), the identity
conversion fails, or the Price Resolver reports no price — and under the
`BTreeMap` key order (`Concrete` before `Abstract`) the first fungible
entry is concrete whenever any concrete fungible asset exists. -/
theorem buy_inspects_only_first_fungible (c : Collab) (s : TraderState) (w : Nat)
    (p : Assets) :
    ((buy_weight c s w p).1 = .error .AssetNotFound ↔ get_asset_and_price c p = none) ∧
    (∀ x t nf nf2,
      get_asset_and_price c ⟨x :: t, nf⟩ = get_asset_and_price c ⟨[x], nf2⟩) ∧
    (p.fungible = [] → (buy_weight c s w p).1 = .error .AssetNotFound) ∧
    (∀ a, p.firstFungible = some a → c.convert a = none →
      (buy_weight c s w p).1 = .error .AssetNotFound) ∧
    (∀ a cur, p.firstFungible = some a → c.convert a = some cur → c.price cur = none →
      (buy_weight c s w p).1 = .error .AssetNotFound) ∧
    (p.WF → ∀ loc v, (XcmAssetId.Concrete loc, v) ∈ p.fungible →
      ∃ loc2 v2, p.fungible.head? = some (XcmAssetId.Concrete loc2, v2)) := by
  have hanf : get_asset_and_price c p = none →
      (buy_weight c s w p).1 = .error .AssetNotFound := by
    intro hg
    simp [buy_weight, hg]
  refine ⟨⟨?_, hanf⟩, ?_, ?_, ?_, ?_, ?_⟩
  · intro he
    cases hg : get_asset_and_price c p with
    | none => rfl
    | some x =>
      obtain ⟨loc, pr⟩ := x
      cases hm : Price.checked_mul_int pr (c.weight_to_fee w) with
      | none => simp [buy_weight, hg, hm] at he
      | some amt =>
        cases hs : Assets.checked_sub p ⟨.Concrete loc, .Fungible amt⟩ with
        | none => simp [buy_weight, hg, hm, hs] at he
        | some u => simp [buy_weight, hg, hm, hs] at he
  · intro x t nf nf2
    obtain ⟨id, v⟩ := x
    rw [@get_asset_and_price_head c ⟨(id, v) :: t, nf⟩ id v rfl,
      @get_asset_and_price_head c ⟨[(id, v)], nf2⟩ id v rfl]
  · intro h
    exact hanf (get_asset_and_price_nil (by rw [h]; rfl))
  · intro a ha hc
    cases hh : p.fungible.head? with
    | none => exact hanf (get_asset_and_price_nil hh)
    | some kv =>
      obtain ⟨id, v⟩ := kv
      unfold Assets.firstFungible at ha
      rw [hh] at ha
      simp only [Option.map_some', Option.some.injEq] at ha
      subst ha
      refine hanf ?_
      rw [get_asset_and_price_head hh, hc]
      rfl
  · intro a cur ha hc hp
    cases hh : p.fungible.head? with
    | none => exact hanf (get_asset_and_price_nil hh)
    | some kv =>
      obtain ⟨id, v⟩ := kv
      unfold Assets.firstFungible at ha
      rw [hh] at ha
      simp only [Option.map_some', Option.some.injEq] at ha
      subst ha
      refine hanf ?_
      rw [get_asset_and_price_head hh, hc, Option.some_bind, hp]
      rfl
  · intro hwf loc v hmem
    cases hf : p.fungible with
    | nil => rw [hf] at hmem; cases hmem
    | cons x t =>
      obtain ⟨id2, v2⟩ := x
      cases id2 with
      | Concrete loc2 => exact ⟨loc2, v2, rfl⟩
      | Abstract b =>
        rw [hf] at hmem
        unfold Assets.WF at hwf
        rw [hf] at hwf
        rcases List.mem_cons.mp hmem with h | h
        · simp at h
        · have hrel := (List.pairwise_cons.mp hwf).1 _ h
          simp [XcmAssetId.ltb] at hrel

/-- Witness for C7 at concrete inputs: a payment holding only a
non-fungible item fails with `AssetNotFound`. -/
theorem buy_inspects_only_first_fungible_witness :
    (buy_weight ⟨fun _ => some 0, fun _ => some ⟨Price.DIV⟩, fun w => w⟩ ⟨0, []⟩ 5
      ⟨[], [(.Concrete 7, 1)]⟩).1 = .error .AssetNotFound :=
  (buy_inspects_only_first_fungible ⟨fun _ => some 0, fun _ => some ⟨Price.DIV⟩, fun w => w⟩
    ⟨0, []⟩ 5 ⟨[], [(.Concrete 7, 1)]⟩).2.2.1 rfl

end Adapters

namespace Adapters

theorem refund_weight_cons (c : Collab) (s : TraderState) (w : Nat) (loc : Nat) (pr : Price)
    (a : Nat) (t : List ((Nat × Price) × Nat)) (h : s.paid_assets = ((loc, pr), a) :: t) :
    refund_weight c s w =
      (some ⟨.Concrete loc,
        .Fungible (min (Price.saturating_mul_int pr (c.weight_to_fee (min w s.weight))) a)⟩,
       { weight := s.weight - min w s.weight,
         paid_assets :=
           if a - min (Price.saturating_mul_int pr (c.weight_to_fee (min w s.weight))) a = 0
           then t
           else ((loc, pr),
             a - min (Price.saturating_mul_int pr (c.weight_to_fee (min w s.weight))) a)
             :: t }) := by
  unfold refund_weight
  rw [h]
  by_cases hr : a - min (Price.saturating_mul_int pr (c.weight_to_fee (min w s.weight))) a = 0
  · simp [hr, alErase]
  · simp [hr, alUpdate]

/-- C2 counterexample: a successful `buy_weight` whose computed cost is 0
(here: zero canonical fee against a known asset) inserts a bucket with
amount 0 into the ledger, so a bucket with amount 0 does exist after the
operation returns. -/
theorem buy_can_insert_zero_bucket :
    (buy_weight ⟨fun _ => some 0, fun _ => some ⟨Price.DIV⟩, fun _ => 0⟩ TraderState.new 3
      ⟨[(.Concrete 7, 5)], []⟩).1 = .ok ⟨[(.Concrete 7, 5)], []⟩ ∧
    (buy_weight ⟨fun _ => some 0, fun _ => some ⟨Price.DIV⟩, fun _ => 0⟩ TraderState.new 3
      ⟨[(.Concrete 7, 5)], []⟩).2.paid_assets = [((7, ⟨Price.DIV⟩), 0)] :=
  ⟨rfl, rfl⟩

/-- C2 amended: ledger amounts are non-negative naturals and the total
weight bought never goes negative (refund decrements it by exactly the
clamped `min w total`); `refund_weight` and `flush` preserve the
"no zero-amount bucket" invariant, and `buy_weight` preserves it whenever
the computed cost of the purchase is nonzero — a buy whose computed cost is
0 instead inserts a zero-amount bucket (see the counterexample). -/
theorem ops_preserve_ledger_invariant (c : Collab) (s : TraderState) (w : Nat) (p : Assets)
    (hs : ∀ e ∈ s.paid_assets, 0 < e.2)
    (hamt : ∀ loc price, get_asset_and_price c p = some (loc, price) →
      Price.checked_mul_int price (c.weight_to_fee w) ≠ some 0) :
    (∀ u s2, buy_weight c s w p = (.ok u, s2) → ∀ e ∈ s2.paid_assets, 0 < e.2) ∧
    (∀ e ∈ (refund_weight c s w).2.paid_assets, 0 < e.2) ∧
    (∀ e ∈ (flush s).2.paid_assets, 0 < e.2) ∧
    (refund_weight c s w).2.weight + min w s.weight = s.weight := by
  have hmax : 0 < u128Max := by decide
  refine ⟨?_, ?_, ?_, ?_⟩
  · intro u s2 hb e he
    cases hg : get_asset_and_price c p with
    | none => simp [buy_weight, hg] at hb
    | some x =>
      obtain ⟨loc, pr⟩ := x
      cases hm : Price.checked_mul_int pr (c.weight_to_fee w) with
      | none => simp [buy_weight, hg, hm] at hb
      | some amt =>
        cases hsub : Assets.checked_sub p ⟨.Concrete loc, .Fungible amt⟩ with
        | none => simp [buy_weight, hg, hm, hsub] at hb
        | some u2 =>
          have hamt2 : 0 < amt := by
            rcases Nat.eq_zero_or_pos amt with h0 | h0
            · exact absurd (h0 ▸ hm) (hamt loc pr hg)
            · exact h0
          simp only [buy_weight, hg, hm, hsub, Prod.mk.injEq] at hb
          obtain ⟨hu, hsx⟩ := hb
          subst hsx
          simp only [ledgerAdd] at he
          cases hl : alLookup s.paid_assets (loc, pr) with
          | some v =>
            rw [hl] at he
            rcases alUpdate_mem he with h | h
            · exact hs e h
            · have hv := hs _ (alLookup_mem hl)
              rw [h]
              exact lt_min_iff.mpr ⟨by omega, hmax⟩
          | none =>
            rw [hl] at he
            rcases alInsert_mem he with h | h
            · exact hs e h
            · rw [h]
              exact hamt2
  · intro e he
    cases hpa : s.paid_assets with
    | nil => simp [refund_weight, hpa] at he
    | cons x t =>
      obtain ⟨⟨loc, pr⟩, a⟩ := x
      rw [refund_weight_cons c s w loc pr a t hpa] at he
      simp only at he
      by_cases hr : a - min (Price.saturating_mul_int pr (c.weight_to_fee (min w s.weight))) a
          = 0
      · rw [if_pos hr] at he
        exact hs e (by rw [hpa]; exact List.mem_cons_of_mem _ he)
      · rw [if_neg hr] at he
        rcases List.mem_cons.mp he with h | h
        · rw [h]
          omega
        · exact hs e (by rw [hpa]; exact List.mem_cons_of_mem _ h)
  · intro e he
    simp [flush] at he
  · cases hpa : s.paid_assets with
    | nil =>
      simp only [refund_weight, hpa, List.head?_nil]
      omega
    | cons x t =>
      obtain ⟨⟨loc, pr⟩, a⟩ := x
      rw [refund_weight_cons c s w loc pr a t hpa]
      simp only
      omega

/-- Witness for the amended C2 at concrete inputs: refund decrements the
total weight by exactly the clamped amount. -/
theorem ops_preserve_ledger_invariant_witness :
    (refund_weight ⟨fun _ => some 0, fun _ => some ⟨Price.DIV⟩, fun w => w⟩
      ⟨10, [((7, ⟨Price.DIV⟩), 50)]⟩ 4).2.weight + min 4 10 = 10 :=
  (ops_preserve_ledger_invariant ⟨fun _ => some 0, fun _ => some ⟨Price.DIV⟩, fun w => w⟩
    ⟨10, [((7, ⟨Price.DIV⟩), 50)]⟩ 4 ⟨[(.Concrete 7, 100)], []⟩
    (by decide)
    (fun loc price h => by
      have h2 : (7, (⟨Price.DIV⟩ : Price)) = (loc, price) := Option.some.inj h
      injection h2 with h3 h4
      subst h3
      subst h4
      decide)).2.2.2

end Adapters

namespace Adapters

/-- C4: a single successful `buy_weight` of computed cost `amt` from a
fresh session, immediately followed by `refund_weight` of the same weight,
returns exactly the bought asset with amount `amt` and leaves the ledger
empty (and the accumulated weight at 0). -/
theorem buy_then_refund_returns_cost (c : Collab) (w : Nat) (p : Assets) (loc : Nat)
    (price : Price) (amt : Nat) (u : Assets) (hw : w ≤ u64Max)
    (hsel : get_asset_and_price c p = some (loc, price))
    (hm : Price.checked_mul_int price (c.weight_to_fee w) = some amt)
    (hbuy : (buy_weight c TraderState.new w p).1 = .ok u) :
    refund_weight c (buy_weight c TraderState.new w p).2 w =
      (some ⟨.Concrete loc, .Fungible amt⟩, ⟨0, []⟩) := by
  have hfee : price.inner * c.weight_to_fee w / Price.DIV = amt ∧ amt ≤ u128Max := by
    unfold Price.checked_mul_int at hm
    split at hm
    · exact ⟨Option.some.inj hm, (Option.some.inj hm) ▸ (by assumption)⟩
    · cases hm
  cases hsub : Assets.checked_sub p ⟨.Concrete loc, .Fungible amt⟩ with
  | none => simp [buy_weight, hsel, hm, hsub] at hbuy
  | some u2 =>
    have hw2 : min (0 + w) u64Max = w := by
      rw [Nat.zero_add]
      exact Nat.min_eq_left hw
    have hs1 : (buy_weight c TraderState.new w p).2 = ⟨w, [((loc, price), amt)]⟩ := by
      simp [buy_weight, hsel, hm, hsub, ledgerAdd, alLookup, alInsert, TraderState.new,
        satAdd64, hw2]
      exact hw
    rw [hs1]
    have hsm : Price.saturating_mul_int price (c.weight_to_fee w) = amt := by
      unfold Price.saturating_mul_int
      rw [hfee.1]
      exact Nat.min_eq_left hfee.2
    rw [refund_weight_cons c ⟨w, [((loc, price), amt)]⟩ w loc price amt [] rfl]
    simp [hsm, Nat.min_self]

/-- Witness for C4 at concrete inputs: buying weight 100 at price 1.0 with
the identity fee formula costs 100; the immediate refund returns the asset
with amount 100 and empties the session. -/
theorem buy_then_refund_returns_cost_witness :
    refund_weight ⟨fun _ => some 0, fun _ => some ⟨Price.DIV⟩, fun w => w⟩
      (buy_weight ⟨fun _ => some 0, fun _ => some ⟨Price.DIV⟩, fun w => w⟩
        TraderState.new 100 ⟨[(.Concrete 7, 100)], []⟩).2 100 =
      (some ⟨.Concrete 7, .Fungible 100⟩, ⟨0, []⟩) :=
  buy_then_refund_returns_cost ⟨fun _ => some 0, fun _ => some ⟨Price.DIV⟩, fun w => w⟩
    100 ⟨[(.Concrete 7, 100)], []⟩ 7 ⟨Price.DIV⟩ 100 ⟨[], []⟩ (by decide) rfl rfl rfl

/-- C5: when the ledger is non-empty, `refund_weight` touches exactly one
bucket per call — the head of the `paid_assets` map, which under the map's
`(AssetIdentity, ExchangePrice)` key order is strictly smaller than every
other key (first in key order, not purchase order) — and leaves every other
bucket unchanged, so recovering all assets takes one refund call per bucket
in that key order. -/
theorem refund_picks_first_key_order (c : Collab) (s : TraderState) (w : Nat)
    (hwf : s.paid_assets.Pairwise (fun x y => lkeyLt x.1 y.1 = true))
    (hne : s.paid_assets ≠ []) :
    ∃ k a t, s.paid_assets = (k, a) :: t ∧
      (∀ e ∈ t, lkeyLt k e.1 = true) ∧
      (refund_weight c s w).1 = some ⟨.Concrete k.1,
        .Fungible (min (Price.saturating_mul_int k.2 (c.weight_to_fee (min w s.weight))) a)⟩ ∧
      ((refund_weight c s w).2.paid_assets = t ∨
        ∃ r, 0 < r ∧ (refund_weight c s w).2.paid_assets = (k, r) :: t) := by
  cases hpa : s.paid_assets with
  | nil => exact absurd hpa hne
  | cons x t =>
    obtain ⟨⟨loc, pr⟩, a⟩ := x
    have hmin : ∀ e ∈ t, lkeyLt (loc, pr) e.1 = true := by
      rw [hpa] at hwf
      exact fun e he => (List.pairwise_cons.mp hwf).1 e he
    refine ⟨(loc, pr), a, t, rfl, hmin, ?_, ?_⟩
    · rw [refund_weight_cons c s w loc pr a t hpa]
    · rw [refund_weight_cons c s w loc pr a t hpa]
      by_cases hr : a - min (Price.saturating_mul_int pr (c.weight_to_fee (min w s.weight))) a
          = 0
      · left
        simp [hr]
      · right
        exact ⟨a - min (Price.saturating_mul_int pr (c.weight_to_fee (min w s.weight))) a,
          by omega, by simp [hr]⟩

/-- Witness for C5 at concrete inputs: with buckets at keys `(3, 1.0)` and
`(7, 1.0)`, refunding weight 2 touches only the smaller key `(3, 1.0)`. -/
theorem refund_picks_first_key_order_witness :
    ∃ k a t,
      (⟨10, [((3, ⟨Price.DIV⟩), 5), ((7, ⟨Price.DIV⟩), 9)]⟩ : TraderState).paid_assets
        = (k, a) :: t ∧
      (∀ e ∈ t, lkeyLt k e.1 = true) ∧
      (refund_weight ⟨fun _ => some 0, fun _ => some ⟨Price.DIV⟩, fun w => w⟩
        ⟨10, [((3, ⟨Price.DIV⟩), 5), ((7, ⟨Price.DIV⟩), 9)]⟩ 2).1 =
        some ⟨.Concrete k.1, .Fungible (min (Price.saturating_mul_int k.2 (min 2 10)) a)⟩ ∧
      ((refund_weight ⟨fun _ => some 0, fun _ => some ⟨Price.DIV⟩, fun w => w⟩
          ⟨10, [((3, ⟨Price.DIV⟩), 5), ((7, ⟨Price.DIV⟩), 9)]⟩ 2).2.paid_assets = t ∨
        ∃ r, 0 < r ∧
          (refund_weight ⟨fun _ => some 0, fun _ => some ⟨Price.DIV⟩, fun w => w⟩
            ⟨10, [((3, ⟨Price.DIV⟩), 5), ((7, ⟨Price.DIV⟩), 9)]⟩ 2).2.paid_assets
            = (k, r) :: t) :=
  refund_picks_first_key_order ⟨fun _ => some 0, fun _ => some ⟨Price.DIV⟩, fun w => w⟩
    ⟨10, [((3, ⟨Price.DIV⟩), 5), ((7, ⟨Price.DIV⟩), 9)]⟩ 2 (by decide) (by decide)

end Adapters

namespace Adapters

/-- C8 counterexample: two successful buys of the same asset at the same
resolved price whose individual costs are each `2^127` leave a single
bucket holding the saturated `u128::MAX`, which is not the sum `2^128` of
the two individual costs. -/
theorem same_bucket_accumulation_saturates :
    (buy_weight ⟨fun _ => some 0, fun _ => some ⟨Price.DIV⟩, fun _ => 2 ^ 127⟩
      TraderState.new 1 ⟨[(.Concrete 7, 2 ^ 127)], []⟩).1 = .ok ⟨[], []⟩ ∧
    (buy_weight ⟨fun _ => some 0, fun _ => some ⟨Price.DIV⟩, fun _ => 2 ^ 127⟩
      (buy_weight ⟨fun _ => some 0, fun _ => some ⟨Price.DIV⟩, fun _ => 2 ^ 127⟩
        TraderState.new 1 ⟨[(.Concrete 7, 2 ^ 127)], []⟩).2
      1 ⟨[(.Concrete 7, 2 ^ 127)], []⟩).1 = .ok ⟨[], []⟩ ∧
    (buy_weight ⟨fun _ => some 0, fun _ => some ⟨Price.DIV⟩, fun _ => 2 ^ 127⟩
      (buy_weight ⟨fun _ => some 0, fun _ => some ⟨Price.DIV⟩, fun _ => 2 ^ 127⟩
        TraderState.new 1 ⟨[(.Concrete 7, 2 ^ 127)], []⟩).2
      1 ⟨[(.Concrete 7, 2 ^ 127)], []⟩).2.paid_assets
      = [((7, ⟨Price.DIV⟩), u128Max)] ∧
    u128Max ≠ 2 ^ 127 + 2 ^ 127 :=
  ⟨rfl, rfl, rfl, by decide⟩

/-- C8 amended: ledger buckets are keyed by the `(AssetIdentity,
ExchangePrice)` pair: two successful buys of the same asset at the same
resolved price from a fresh session accumulate into a single bucket holding
the saturating sum `min (q1 + q2) u128::MAX` of the two individual costs
(the exact sum whenever it fits `u128`), while two buys resolving to
different keys produce two distinct buckets holding the two individual
costs. -/
theorem buckets_keyed_by_asset_and_price (c : Collab) (w1 w2 : Nat) (p1 p2 : Assets)
    (loc1 loc2 : Nat) (pr1 pr2 : Price) (q1 q2 : Nat) (u1 u2 : Assets)
    (h1 : get_asset_and_price c p1 = some (loc1, pr1))
    (hq1 : Price.checked_mul_int pr1 (c.weight_to_fee w1) = some q1)
    (hb1 : (buy_weight c TraderState.new w1 p1).1 = .ok u1)
    (h2 : get_asset_and_price c p2 = some (loc2, pr2))
    (hq2 : Price.checked_mul_int pr2 (c.weight_to_fee w2) = some q2)
    (hb2 : (buy_weight c (buy_weight c TraderState.new w1 p1).2 w2 p2).1 = .ok u2) :
    ((loc1, pr1) = (loc2, pr2) →
      (buy_weight c (buy_weight c TraderState.new w1 p1).2 w2 p2).2.paid_assets
        = [((loc1, pr1), min (q1 + q2) u128Max)]) ∧
    ((loc1, pr1) ≠ (loc2, pr2) →
      alLookup (buy_weight c (buy_weight c TraderState.new w1 p1).2 w2 p2).2.paid_assets
        (loc1, pr1) = some q1 ∧
      alLookup (buy_weight c (buy_weight c TraderState.new w1 p1).2 w2 p2).2.paid_assets
        (loc2, pr2) = some q2 ∧
      (buy_weight c (buy_weight c TraderState.new w1 p1).2 w2 p2).2.paid_assets.length
        = 2) := by
  cases hsub1 : Assets.checked_sub p1 ⟨.Concrete loc1, .Fungible q1⟩ with
  | none => simp [buy_weight, h1, hq1, hsub1] at hb1
  | some v1 =>
  have hs1 : (buy_weight c TraderState.new w1 p1).2 =
      ⟨satAdd64 0 w1, [((loc1, pr1), q1)]⟩ := by
    simp [buy_weight, h1, hq1, hsub1, ledgerAdd, alLookup, alInsert, TraderState.new]
  rw [hs1] at hb2 ⊢
  cases hsub2 : Assets.checked_sub p2 ⟨.Concrete loc2, .Fungible q2⟩ with
  | none => simp [buy_weight, h2, hq2, hsub2] at hb2
  | some v2 =>
  constructor
  · intro hkey
    injection hkey with hl hp
    subst hl
    subst hp
    simp [buy_weight, h2, hq2, hsub2, ledgerAdd, alLookup, alUpdate]
  · intro hkey
    have hne : ((loc2, pr2) : Nat × Price) ≠ (loc1, pr1) := fun h => hkey h.symm
    have hlk : alLookup [((loc1, pr1), q1)] (loc2, pr2) = none := by
      simp [alLookup, hne]
    have hpa : (buy_weight c ⟨satAdd64 0 w1, [((loc1, pr1), q1)]⟩ w2 p2).2.paid_assets =
        alInsert lkeyLt [((loc1, pr1), q1)] (loc2, pr2) q2 := by
      simp [buy_weight, h2, hq2, hsub2, ledgerAdd, hlk]
    rw [hpa]
    refine ⟨?_, alLookup_alInsert_self .., ?_⟩
    · rw [alLookup_alInsert_ne q2 hkey]
      simp [alLookup]
    · simp [alInsert_length q2 hlk]

/-- Witness for the amended C8 at concrete inputs: two buys of weight 10 of
the same asset at price 1.0 accumulate one bucket with the (unsaturated)
sum 20 of the two costs. -/
theorem buckets_keyed_by_asset_and_price_witness :
    (buy_weight ⟨fun _ => some 0, fun _ => some ⟨Price.DIV⟩, fun w => w⟩
      (buy_weight ⟨fun _ => some 0, fun _ => some ⟨Price.DIV⟩, fun w => w⟩
        TraderState.new 10 ⟨[(.Concrete 7, 10)], []⟩).2
      10 ⟨[(.Concrete 7, 10)], []⟩).2.paid_assets
      = [((7, ⟨Price.DIV⟩), min (10 + 10) u128Max)] :=
  (buckets_keyed_by_asset_and_price ⟨fun _ => some 0, fun _ => some ⟨Price.DIV⟩, fun w => w⟩
    10 10 ⟨[(.Concrete 7, 10)], []⟩ ⟨[(.Concrete 7, 10)], []⟩ 7 7 ⟨Price.DIV⟩ ⟨Price.DIV⟩
    10 10 ⟨[], []⟩ ⟨[], []⟩ rfl rfl rfl rfl rfl rfl).1 rfl

end Adapters
